import Mathlib

/-!
Verification of the swirlnet novelty-search archive (`src/main.js`).

The archive object created by `makeArchive` is a closure over five mutable
variables: `behaviorArchive`, `recentBehaviors`, `dimensionality`,
`sparsities` and the flag `sparsitiesCalculatedThisGeneration`.  We embed
that closure state as the structure `ArchiveState` and each method as a pure
function on it.  JavaScript numbers are modelled as rationals (`ℚ`); the
pluggable `behaviorDistanceFunction` is a parameter of every operation that
uses it.  A JS `assert` throw is modelled by returning the mutations made so
far together with the flag `false`; a normal return carries `true`.
-/

namespace Swirlnet

/-- A behavior vector: a JS array of numbers, modelled as a list of rationals. -/
abbrev Behavior := List ℚ

/-- One recorded observation: the `[behavior, genome]` pair pushed by `noteBehavior`. -/
abbrev Observation := Behavior × String

/-- Fallback observation used for out-of-range list indexing (never reached on
the in-range indices the code actually uses). -/
def dummyObservation : Observation := ([], "")

/-- The closure state of one archive instance created by `makeArchive`. -/
structure ArchiveState where
  behaviorArchive : List Observation
  recentBehaviors : List Observation
  dimensionality : Option Nat
  sparsities : List ℚ
  sparsitiesCalculatedThisGeneration : Bool
deriving DecidableEq

/-- The state set up by `init()`: empty archive, empty generation buffer, no
dimensionality established, no cached sparsities, ordering guard cleared. -/
def initState : ArchiveState :=
  { behaviorArchive := []
    recentBehaviors := []
    dimensionality := none
    sparsities := []
    sparsitiesCalculatedThisGeneration := false }

/-- Embeds `noteBehavior(behavior, genome)`.  The JS function first sets
`dimensionality` when it is still undefined, and only then runs its asserts
(ordering guard, `Array.isArray(behavior)`, `typeof genome === "string"`,
dimensionality match), so a failing call can still establish the
dimensionality.  The two Booleans model the dynamic type of the two
arguments.  Returns the state after the call together with `true` on normal
return and `false` when an assert throws. -/
def noteBehavior (st : ArchiveState) (behavior : Behavior) (behaviorIsArray : Bool)
    (genome : String) (genomeIsString : Bool) : ArchiveState × Bool :=
  let st1 := match st.dimensionality with
    | none => { st with dimensionality := some behavior.length }
    | some _ => st
  if st1.sparsitiesCalculatedThisGeneration then (st1, false)
  else if ! behaviorIsArray then (st1, false)
  else if ! genomeIsString then (st1, false)
  else if st1.dimensionality = some behavior.length then
    ({ st1 with recentBehaviors := st1.recentBehaviors ++ [(behavior, genome)] }, true)
  else (st1, false)

/-- The `distances` local of `measureSparsity`: distances from the behavior at
buffer position `i` to every archived behavior (in archive order, via the
`forEach` loop) and to every other recent behavior (in buffer order, the
indexed `for` loop skipping index `i`), with the argument order of the JS
calls `measureBehaviorDistance(other, behavior)`. -/
def candidateDistances (dist : Behavior → Behavior → ℚ)
    (archive recent : List Observation) (i : Nat) : List ℚ :=
  archive.map (fun a => dist a.1 ((recent.getD i dummyObservation).1))
    ++ ((List.range recent.length).filter (fun j => decide (j ≠ i))).map
        (fun j => dist (recent.getD j dummyObservation).1 ((recent.getD i dummyObservation).1))

/-- The `effectiveKNearestNeighbors` local of `measureSparsity`:
`(distances.length < k) ? distances.length : k` for `n` candidate distances. -/
def effectiveK (k n : Nat) : Nat :=
  if n < k then n else k

/-- Embeds `measureSparsity(recentBehaviorIndex)`: the candidate distances are
sorted ascending by the numeric comparator, truncated to the effective
number of nearest neighbors, and averaged via `reduce`.  Returns `none`
where the JS code throws: on an out-of-range index, or when the truncated
distance list is empty so that `reduce` has no initial element. -/
def measureSparsity (dist : Behavior → Behavior → ℚ) (k : Nat)
    (archive recent : List Observation) (i : Nat) : Option ℚ :=
  if i < recent.length then
    match ((candidateDistances dist archive recent i).mergeSort
        (fun a b => decide (a ≤ b))).take
          (effectiveK k (candidateDistances dist archive recent i).length) with
    | [] => none
    | d0 :: rest =>
      some ((rest.foldl (· + ·) d0)
        / ((effectiveK k (candidateDistances dist archive recent i).length : ℚ)))
  else none

/-- The `for` loop of `calculateSparsities`: pushes the sparsity of each index
in turn, stopping (with the pushes made so far and `false`) at the first
index where `measureSparsity` throws. -/
def sparsityLoop (dist : Behavior → Behavior → ℚ) (k : Nat)
    (archive recent : List Observation) : List Nat → List ℚ → List ℚ × Bool
  | [], acc => (acc, true)
  | i :: rest, acc =>
    match measureSparsity dist k archive recent i with
    | some s => sparsityLoop dist k archive recent rest (acc ++ [s])
    | none => (acc, false)

/-- Embeds `calculateSparsities()`: asserts a non-empty buffer and a cache
that is either empty or complete, recomputes all sparsities when the cache
length differs from the buffer length, and finally sets the ordering guard.
On an assert throw the state so far is returned with `false`. -/
def calculateSparsities (dist : Behavior → Behavior → ℚ) (k : Nat)
    (st : ArchiveState) : ArchiveState × Bool :=
  if st.recentBehaviors.length = 0 then (st, false)
  else if st.sparsities.length ≠ 0 ∧ st.sparsities.length ≠ st.recentBehaviors.length then
    (st, false)
  else if st.sparsities.length ≠ st.recentBehaviors.length then
    match sparsityLoop dist k st.behaviorArchive st.recentBehaviors
        (List.range st.recentBehaviors.length) [] with
    | (sp, true) =>
      ({ st with sparsities := sp, sparsitiesCalculatedThisGeneration := true }, true)
    | (sp, false) => ({ st with sparsities := sp }, false)
  else
    ({ st with sparsitiesCalculatedThisGeneration := true }, true)

/-- Embeds `getSparsities()`: runs `calculateSparsities` and returns a copy of
the sparsity list (`none` when the computation throws), plus the new state. -/
def getSparsities (dist : Behavior → Behavior → ℚ) (k : Nat)
    (st : ArchiveState) : Option (List ℚ) × ArchiveState :=
  match calculateSparsities dist k st with
  | (st1, true) => (some st1.sparsities, st1)
  | (st1, false) => (none, st1)

/-- Embeds `getArchive()` (the returned copy, as a value). -/
def getArchive (st : ArchiveState) : List Observation :=
  st.behaviorArchive

/-- Embeds `getArchiveLength()`. -/
def getArchiveLength (st : ArchiveState) : Nat :=
  st.behaviorArchive.length

/-- Embeds `pruneArchive()`: when the archive is longer than `maxArchiveSize`
(`none` models the `Infinity` default), `splice(0, length - maxArchiveSize)`
removes that many entries from the front. -/
def pruneArchive (max : Option Nat) (st : ArchiveState) : ArchiveState :=
  match max with
  | none => st
  | some m =>
    if m < st.behaviorArchive.length then
      { st with behaviorArchive :=
          st.behaviorArchive.drop (st.behaviorArchive.length - m) }
    else st

/-- The `for` loop of `archiveAndClear`: for each index, pushes the recent
behavior onto the accumulated archive when its sparsity is `>=` the
threshold (a missing `sparsities[i]` reads as `undefined`, which compares
false). -/
def archivePushLoop (thr : ℚ) (recent : List Observation) (sparsities : List ℚ) :
    List Nat → List Observation → List Observation
  | [], acc => acc
  | i :: rest, acc =>
    match sparsities.get? i with
    | some s =>
      if thr ≤ s then
        archivePushLoop thr recent sparsities rest (acc ++ [recent.getD i dummyObservation])
      else archivePushLoop thr recent sparsities rest acc
    | none => archivePushLoop thr recent sparsities rest acc

/-- Embeds `archiveAndClear()`: computes sparsities (propagating a throw),
pushes every recent behavior whose sparsity clears `archiveThreshold` onto
the archive in buffer order, prunes, then clears the buffer, the cached
sparsities and the ordering guard. -/
def archiveAndClear (dist : Behavior → Behavior → ℚ) (k : Nat) (thr : ℚ)
    (max : Option Nat) (st : ArchiveState) : ArchiveState × Bool :=
  match calculateSparsities dist k st with
  | (st1, false) => (st1, false)
  | (st1, true) =>
    let newArchive := archivePushLoop thr st1.recentBehaviors st1.sparsities
      (List.range st1.recentBehaviors.length) st1.behaviorArchive
    let st2 := { st1 with behaviorArchive := newArchive }
    let st3 := pruneArchive max st2
    ({ st3 with recentBehaviors := [],
                sparsities := [],
                sparsitiesCalculatedThisGeneration := false }, true)

/-- Modelled from the spec: `util.isInt` comes from the external
`swirlnet.util` module, which is not part of this repository; per the spec,
construction with a non-integer `kNearestNeighbors` or `archiveThreshold`
fails, so `isInt` holds exactly of integral numbers. -/
def isInt (q : ℚ) : Bool := q.den = 1

/-- The dynamic shape of the `options` argument of `makeArchive`: the two
numeric fields as JS numbers, whether `behaviorDistanceFunction` is a
function or `undefined` (`true`) or some other value (`false`), and
`maxArchiveSize` when present. -/
structure RawOptions where
  kNearestNeighbors : ℚ
  archiveThreshold : ℚ
  distanceFunctionOk : Bool
  maxArchiveSize : Option ℚ

/-- The construction-time asserts of `makeArchive`: `true` exactly when every
assert passes and the factory returns an archive object. -/
def makeArchiveChecks (o : RawOptions) : Bool :=
  (isInt o.kNearestNeighbors && decide (0 < o.kNearestNeighbors))
    && (isInt o.archiveThreshold && decide (0 < o.archiveThreshold))
    && o.distanceFunctionOk
    && (match o.maxArchiveSize with
        | none => true
        | some m => isInt m && decide (0 < m))

/-- States reachable through the public interface from a freshly constructed
archive, for a fixed configuration.  Failing calls are included: a JS assert
throw returns control to the caller with the mutations made so far. -/
inductive Reachable (dist : Behavior → Behavior → ℚ) (k : Nat) (thr : ℚ)
    (max : Option Nat) : ArchiveState → Prop
  | init : Reachable dist k thr max initState
  | note (st : ArchiveState) (b : Behavior) (ia : Bool) (g : String) (is : Bool) :
      Reachable dist k thr max st →
      Reachable dist k thr max (noteBehavior st b ia g is).1
  | compute (st : ArchiveState) :
      Reachable dist k thr max st →
      Reachable dist k thr max (calculateSparsities dist k st).1
  | finalize (st : ArchiveState) :
      Reachable dist k thr max st →
      Reachable dist k thr max (archiveAndClear dist k thr max st).1

/-- Written from the specification text, step 1 of the sparsity algorithm:
the candidate distance collection of the observation at buffer position `i`
is the distance from its behavior `B` to every archived entry together with
the distance from `B` to every other observation of the generation buffer
(the buffer with position `i` removed). -/
def specCandidateDistances (dist : Behavior → Behavior → ℚ)
    (archive recent : List Observation) (i : Nat) : List ℚ :=
  archive.map (fun a => dist ((recent.getD i dummyObservation).1) a.1)
    ++ (recent.eraseIdx i).map (fun o => dist ((recent.getD i dummyObservation).1) o.1)

/-- Written from the specification text, steps 2-4 of the sparsity algorithm:
`keff` is the minimum of `kNearestNeighbors` and the candidate count, the
candidates are sorted ascending, the `keff` smallest are kept, and the
sparsity is their arithmetic mean (undefined when there are no candidates). -/
def specSparsity (dist : Behavior → Behavior → ℚ) (k : Nat)
    (archive recent : List Observation) (i : Nat) : Option ℚ :=
  if (specCandidateDistances dist archive recent i).isEmpty then none
  else
    some (((((specCandidateDistances dist archive recent i).insertionSort (· ≤ ·)).take
        (min k (specCandidateDistances dist archive recent i).length)).sum)
      / (((min k (specCandidateDistances dist archive recent i).length : ℕ)) : ℚ))

/-- Written from the specification text: FIFO pruning keeps at most `max`
entries of a list by removing the extra entries from the front. -/
def specFifoPrune (max : Option Nat) (l : List Observation) : List Observation :=
  match max with
  | none => l
  | some m => if l.length ≤ m then l else l.drop (l.length - m)

/-!
### Bridging lemmas

The JS code accesses the generation buffer through integer indices
(`recentBehaviors[i]`) while the specification speaks about the observations
themselves; these lemmas connect the two views.
-/

theorem foldl_add_eq_sum (t : List ℚ) (a : ℚ) :
    t.foldl (· + ·) a = a + t.sum := by
  induction t generalizing a with
  | nil => simp
  | cons x xs ih =>
    rw [List.foldl_cons, ih, List.sum_cons]
    ring

theorem range_getD_map {α β : Type} (l : List α) (f : α → β) (d : α) :
    (List.range l.length).map (fun j => f (l.getD j d)) = l.map f := by
  induction l with
  | nil => simp
  | cons a t ih =>
    rw [List.length_cons, List.range_succ_eq_map, List.map_cons, List.map_map]
    simp only [Function.comp_def, Nat.succ_eq_add_one, List.getD_cons_zero,
      List.getD_cons_succ]
    rw [ih, List.map_cons]

theorem range_filter_getD_map {α β : Type} (l : List α) (i : Nat) (f : α → β) (d : α) :
    ((List.range l.length).filter (fun j => decide (j ≠ i))).map (fun j => f (l.getD j d))
      = (l.eraseIdx i).map f := by
  induction l generalizing i with
  | nil => simp
  | cons a t ih =>
    rw [List.length_cons, List.range_succ_eq_map, List.filter_cons]
    cases i with
    | zero =>
      simp only [ne_eq, not_true_eq_false, decide_False, Bool.false_eq_true,
        if_false, List.filter_map, List.map_map, List.eraseIdx_cons_zero]
      have hpred : ((fun j => decide (j ≠ 0)) ∘ Nat.succ) = fun _ => true := by
        funext j
        simp
      rw [hpred, List.filter_true]
      simp only [Function.comp_def, Nat.succ_eq_add_one, List.getD_cons_succ]
      exact range_getD_map t f d
    | succ n =>
      simp only [ne_eq, Nat.zero_ne_add_one, not_false_eq_true, decide_True,
        if_true, List.filter_map, List.map_cons, List.map_map,
        List.eraseIdx_cons_succ, List.getD_cons_zero]
      have hpred : ((fun j => decide (j ≠ n + 1)) ∘ Nat.succ)
          = fun j => decide (j ≠ n) := by
        funext j
        simp
      rw [hpred]
      simp only [Function.comp_def, Nat.succ_eq_add_one, List.getD_cons_succ]
      rw [ih n]

theorem candidateDistances_eq_spec (dist : Behavior → Behavior → ℚ)
    (hsymm : ∀ x y, dist x y = dist y x)
    (archive recent : List Observation) (i : Nat) :
    candidateDistances dist archive recent i
      = specCandidateDistances dist archive recent i := by
  unfold candidateDistances specCandidateDistances
  congr 1
  · exact List.map_congr_left fun a _ => hsymm _ _
  · calc ((List.range recent.length).filter (fun j => decide (j ≠ i))).map
          (fun j => dist (recent.getD j dummyObservation).1
            ((recent.getD i dummyObservation).1))
        = (recent.eraseIdx i).map
            (fun o => dist o.1 ((recent.getD i dummyObservation).1)) :=
          range_filter_getD_map recent i
            (fun o => dist o.1 ((recent.getD i dummyObservation).1)) dummyObservation
      _ = (recent.eraseIdx i).map
            (fun o => dist ((recent.getD i dummyObservation).1) o.1) :=
          List.map_congr_left fun o _ => hsymm _ _

theorem effectiveK_eq_min (k n : Nat) : effectiveK k n = min k n := by
  unfold effectiveK
  rcases Nat.lt_or_ge n k with h | h
  · rw [if_pos h, Nat.min_eq_right (Nat.le_of_lt h)]
  · rw [if_neg (Nat.not_lt.mpr h), Nat.min_eq_left h]

theorem mergeSort_le_eq_insertionSort (l : List ℚ) :
    l.mergeSort (fun a b => decide (a ≤ b)) = List.insertionSort (· ≤ ·) l :=
  List.mergeSort_eq_insertionSort (· ≤ ·) l

theorem measureSparsity_eq_specSparsity (dist : Behavior → Behavior → ℚ)
    (hsymm : ∀ x y, dist x y = dist y x) (k : Nat) (hk : 1 ≤ k)
    (archive recent : List Observation) (i : Nat) (hi : i < recent.length) :
    measureSparsity dist k archive recent i
      = specSparsity dist k archive recent i := by
  have hcand := candidateDistances_eq_spec dist hsymm archive recent i
  unfold measureSparsity specSparsity
  rw [if_pos hi, hcand, mergeSort_le_eq_insertionSort, effectiveK_eq_min]
  cases hS : specCandidateDistances dist archive recent i with
  | nil => simp
  | cons x xs =>
    have hSne : (x :: xs : List ℚ) ≠ [] := by simp
    have hlenpos : 0 < (x :: xs : List ℚ).length := by simp
    have hminpos : 0 < min k (x :: xs : List ℚ).length :=
      lt_min (Nat.lt_of_lt_of_le Nat.zero_lt_one hk) hlenpos
    have hsortne : List.insertionSort (· ≤ ·) (x :: xs) ≠ [] := by
      intro hcontra
      have := List.length_insertionSort (α := ℚ) (· ≤ ·) (x :: xs)
      rw [hcontra] at this
      simp at this
    cases htake : (List.insertionSort (· ≤ ·) (x :: xs)).take
        (min k (x :: xs : List ℚ).length) with
    | nil =>
      rcases List.take_eq_nil_iff.mp htake with h0 | h0
      · exact absurd h0 (Nat.pos_iff_ne_zero.mp hminpos)
      · exact absurd h0 hsortne
    | cons d0 rest =>
      simp only [List.isEmpty_cons, htake, Bool.false_eq_true, if_false]
      rw [foldl_add_eq_sum, ← List.sum_cons]

theorem specCandidateDistances_length (dist : Behavior → Behavior → ℚ)
    (archive recent : List Observation) (j : Nat) (hj : j < recent.length) :
    (specCandidateDistances dist archive recent j).length
      = archive.length + (recent.length - 1) := by
  unfold specCandidateDistances
  rw [List.length_append, List.length_map, List.length_map, List.length_eraseIdx,
    if_pos hj]

theorem specSparsity_eq_none_iff (dist : Behavior → Behavior → ℚ) (k : Nat)
    (archive recent : List Observation) (i : Nat) :
    specSparsity dist k archive recent i = none
      ↔ specCandidateDistances dist archive recent i = [] := by
  unfold specSparsity
  by_cases he : (specCandidateDistances dist archive recent i).isEmpty
  · rw [if_pos he]
    constructor
    · intro _
      exact List.isEmpty_iff.mp he
    · intro _
      rfl
  · rw [if_neg he]
    constructor
    · intro h
      exact absurd h (by simp)
    · intro h
      exact absurd (List.isEmpty_iff.mpr h) he

theorem sparsityLoop_all_some (dist : Behavior → Behavior → ℚ) (k : Nat)
    (archive recent : List Observation) (idxs : List Nat) (acc : List ℚ)
    (h : ∀ j ∈ idxs, measureSparsity dist k archive recent j ≠ none) :
    sparsityLoop dist k archive recent idxs acc
      = (acc ++ idxs.map (fun j => (measureSparsity dist k archive recent j).getD 0),
          true) := by
  induction idxs generalizing acc with
  | nil => simp [sparsityLoop]
  | cons j rest ih =>
    have hj := h j (List.mem_cons_self _ _)
    cases hms : measureSparsity dist k archive recent j with
    | none => exact absurd hms hj
    | some s =>
      have ih' := ih (acc ++ [s]) (fun x hx => h x (List.mem_cons_of_mem _ hx))
      simp [sparsityLoop, hms, ih']

/-- When the cache is empty and every index yields a sparsity,
`calculateSparsities` recomputes the whole list in recording order and
succeeds, setting the ordering guard. -/
theorem calculateSparsities_recompute (dist : Behavior → Behavior → ℚ) (k : Nat)
    (st : ArchiveState) (hbuf : st.recentBehaviors ≠ [])
    (hcache : st.sparsities = [])
    (hall : ∀ j, j < st.recentBehaviors.length →
      measureSparsity dist k st.behaviorArchive st.recentBehaviors j ≠ none) :
    calculateSparsities dist k st
      = ({ st with
            sparsities := (List.range st.recentBehaviors.length).map
              (fun j =>
                (measureSparsity dist k st.behaviorArchive st.recentBehaviors j).getD 0),
            sparsitiesCalculatedThisGeneration := true }, true) := by
  have hlen : st.recentBehaviors.length ≠ 0 := by
    simpa [List.length_eq_zero] using hbuf
  unfold calculateSparsities
  rw [if_neg hlen, hcache]
  simp only [List.length_nil, ne_eq, not_true_eq_false, false_and, if_false,
    not_false_eq_true]
  rw [if_pos (show ¬(0 = st.recentBehaviors.length) from fun h => hlen (Eq.symm h))]
  rw [sparsityLoop_all_some dist k st.behaviorArchive st.recentBehaviors _ []
    (fun j hj => hall j (List.mem_range.mp hj))]
  rw [List.nil_append]

/-- C1: for every recorded observation at buffer position `i` whose candidate
distance collection is non-empty, the sparsity computation succeeds and the
value returned for position `i` is the arithmetic mean of the
`min kNearestNeighbors (candidate count)` smallest candidate distances, the
candidates being the distances from the observation to every archived entry
and to every other observation of the generation buffer, sorted ascending. -/
theorem computeSparsities_knn_mean (dist : Behavior → Behavior → ℚ)
    (hsymm : ∀ x y, dist x y = dist y x) (k : Nat) (hk : 1 ≤ k)
    (st : ArchiveState) (i : Nat) (hi : i < st.recentBehaviors.length)
    (hcache : st.sparsities = [])
    (hne : specCandidateDistances dist st.behaviorArchive st.recentBehaviors i ≠ []) :
    (calculateSparsities dist k st).2 = true ∧
      (calculateSparsities dist k st).1.sparsities.get? i
        = specSparsity dist k st.behaviorArchive st.recentBehaviors i := by
  have hbuf : st.recentBehaviors ≠ [] := by
    intro h
    rw [h] at hi
    simp at hi
  have hlenne : ∀ j, j < st.recentBehaviors.length →
      specCandidateDistances dist st.behaviorArchive st.recentBehaviors j ≠ [] := by
    intro j hj hnil
    apply hne
    apply List.length_eq_zero.mp
    rw [specCandidateDistances_length dist _ _ i hi]
    have hlj := congrArg List.length hnil
    rw [specCandidateDistances_length dist _ _ j hj] at hlj
    simpa using hlj
  have hall : ∀ j, j < st.recentBehaviors.length →
      measureSparsity dist k st.behaviorArchive st.recentBehaviors j ≠ none := by
    intro j hj
    rw [measureSparsity_eq_specSparsity dist hsymm k hk _ _ j hj]
    intro h
    exact hlenne j hj ((specSparsity_eq_none_iff dist k _ _ j).mp h)
  rw [calculateSparsities_recompute dist k st hbuf hcache hall]
  refine ⟨rfl, ?_⟩
  simp only
  rw [List.get?_eq_getElem?, List.getElem?_map, List.getElem?_range hi]
  simp only [Option.map_some']
  rw [measureSparsity_eq_specSparsity dist hsymm k hk _ _ i hi]
  cases ho : specSparsity dist k st.behaviorArchive st.recentBehaviors i with
  | none =>
    exact absurd ((specSparsity_eq_none_iff dist k _ _ i).mp ho) (hlenne i hi)
  | some v => simp

/-- A simple symmetric distance function over behaviors, used to instantiate
universally quantified theorems at concrete inputs. -/
def witDist : Behavior → Behavior → ℚ := fun x y => |x.sum - y.sum|

/-- A concrete state: one archived entry, one buffered observation, no cached
sparsities, guard cleared. -/
def witState1 : ArchiveState :=
  { behaviorArchive := [([0], "a")]
    recentBehaviors := [([3], "g")]
    dimensionality := some 1
    sparsities := []
    sparsitiesCalculatedThisGeneration := false }

/-- Witness for C1 at a concrete state: archive `[[0]]`, buffer `[[3]]`. -/
theorem computeSparsities_knn_mean_wit :
    (calculateSparsities witDist 1 witState1).2 = true ∧
      (calculateSparsities witDist 1 witState1).1.sparsities.get? 0
        = specSparsity witDist 1 witState1.behaviorArchive witState1.recentBehaviors 0 :=
  computeSparsities_knn_mean witDist (fun x y => abs_sub_comm _ _) 1 (by decide)
    witState1 0 (by decide) rfl (by decide)

/-- C8: with an empty generation buffer `calculateSparsities` throws its first
assert immediately and `archiveAndClear`, which computes sparsities first,
throws the same way; both leave the whole state — in particular the
archive — unchanged. -/
theorem empty_generation_fails (dist : Behavior → Behavior → ℚ) (k : Nat)
    (thr : ℚ) (max : Option Nat) (st : ArchiveState)
    (h : st.recentBehaviors = []) :
    calculateSparsities dist k st = (st, false)
      ∧ archiveAndClear dist k thr max st = (st, false) := by
  have hc : calculateSparsities dist k st = (st, false) := by
    unfold calculateSparsities
    rw [if_pos (by rw [h]; rfl)]
  refine ⟨hc, ?_⟩
  unfold archiveAndClear
  rw [hc]

/-- Witness for C8 on the freshly constructed state. -/
theorem empty_generation_fails_wit :
    calculateSparsities witDist 1 initState = (initState, false)
      ∧ archiveAndClear witDist 1 2 none initState = (initState, false) :=
  empty_generation_fails witDist 1 2 none initState rfl

/-- C9: with an empty archive and a singleton generation buffer the candidate
distance collection of the lone observation is empty, so the sparsity
computation throws (the JS `reduce` of an empty list) instead of returning a
sparsity sequence. -/
theorem first_observation_sparsity_fails (dist : Behavior → Behavior → ℚ)
    (k : Nat) (st : ArchiveState) (b : Observation)
    (ha : st.behaviorArchive = []) (hr : st.recentBehaviors = [b])
    (hs : st.sparsities = []) :
    (getSparsities dist k st).1 = none
      ∧ (calculateSparsities dist k st).2 = false := by
  have hcd : candidateDistances dist [] [b] 0 = [] := by
    simp [candidateDistances]
  have hms : measureSparsity dist k [] [b] 0 = none := by
    simp [measureSparsity, hcd]
  have hcalc : (calculateSparsities dist k st).2 = false := by
    unfold calculateSparsities
    rw [ha, hr, hs]
    simp [sparsityLoop, hms]
  refine ⟨?_, hcalc⟩
  unfold getSparsities
  cases hc : calculateSparsities dist k st with
  | mk st1 ok =>
    cases ok with
    | false => rfl
    | true =>
      rw [hc] at hcalc
      exact absurd hcalc (by simp)

/-- Witness for C9: the state reached by recording one first observation on a
fresh instance. -/
theorem first_observation_sparsity_fails_wit :
    (getSparsities witDist 1 (noteBehavior initState [3] true "g" true).1).1 = none
      ∧ (calculateSparsities witDist 1 (noteBehavior initState [3] true "g" true).1).2
          = false :=
  first_observation_sparsity_fails witDist 1
    (noteBehavior initState [3] true "g" true).1 ([3], "g") rfl rfl rfl

/-- C10: a failing `noteBehavior` call leaves the generation buffer, the
archive and the cached sparsities untouched, while any call on an instance
with no established dimensionality fixes the dimensionality to the length of
its behavior argument before validation runs — even if the call then
fails. -/
theorem failed_record_preserves_state (st : ArchiveState) (b : Behavior)
    (ia : Bool) (g : String) (is : Bool) :
    ((noteBehavior st b ia g is).2 = false →
        (noteBehavior st b ia g is).1.recentBehaviors = st.recentBehaviors
          ∧ (noteBehavior st b ia g is).1.behaviorArchive = st.behaviorArchive
          ∧ (noteBehavior st b ia g is).1.sparsities = st.sparsities)
      ∧ (st.dimensionality = none →
          (noteBehavior st b ia g is).1.dimensionality = some b.length) := by
  unfold noteBehavior
  cases hd : st.dimensionality with
  | none =>
    simp only
    split_ifs <;> simp_all
  | some d =>
    simp only
    split_ifs <;> simp_all

/-- Witness for C10: a first call whose behavior argument is not an array
fails, yet fixes the dimensionality to 2. -/
theorem failed_record_preserves_state_wit :
    (noteBehavior initState [1, 2] false "g" true).1.recentBehaviors
        = initState.recentBehaviors
      ∧ (noteBehavior initState [1, 2] false "g" true).1.behaviorArchive
          = initState.behaviorArchive
      ∧ (noteBehavior initState [1, 2] false "g" true).1.sparsities
          = initState.sparsities
      ∧ (noteBehavior initState [1, 2] false "g" true).1.dimensionality = some 2 := by
  have h := failed_record_preserves_state initState [1, 2] false "g" true
  have h1 := h.1 (by decide)
  exact ⟨h1.1, h1.2.1, h1.2.2, h.2 rfl⟩

/-- C7 counterexample: the options object with `archiveThreshold = 5/2`,
`kNearestNeighbors = 1`, a function distance and no `maxArchiveSize`
satisfies every precondition of the claim (the threshold is a number greater
than zero) yet construction fails, because `makeArchive` asserts
`util.isInt(options.archiveThreshold)`. -/
theorem construction_rejects_noninteger_threshold :
    (0 : ℚ) < 5 / 2
      ∧ makeArchiveChecks
          { kNearestNeighbors := 1
            archiveThreshold := 5 / 2
            distanceFunctionOk := true
            maxArchiveSize := none } = false := by
  refine ⟨by norm_num, ?_⟩
  have hden : ((5 / 2 : ℚ)).den = 2 := by norm_num
  unfold makeArchiveChecks isInt
  simp [hden]

theorem isInt_pos_iff (q : ℚ) :
    (isInt q = true ∧ 0 < q) ↔ ∃ n : ℕ, 0 < n ∧ q = (n : ℚ) := by
  constructor
  · rintro ⟨hden, hpos⟩
    have h1 : (q.num : ℚ) = q := (Rat.den_eq_one_iff q).mp (by simpa [isInt] using hden)
    have hnum : 0 < q.num := Rat.num_pos.mpr hpos
    refine ⟨q.num.toNat, by omega, ?_⟩
    rw [← h1]
    norm_cast
    omega
  · rintro ⟨n, hn, rfl⟩
    refine ⟨by simp [isInt], ?_⟩
    exact_mod_cast hn

/-- C7 amended: construction succeeds exactly when `kNearestNeighbors` and
`archiveThreshold` are positive integers (so a non-integer threshold such as
2.5 is rejected), the distance function is a function or absent, and
`maxArchiveSize` is a positive integer or absent. -/
theorem makeArchive_valid_iff (o : RawOptions) :
    makeArchiveChecks o = true
      ↔ ((∃ n : ℕ, 0 < n ∧ o.kNearestNeighbors = (n : ℚ))
          ∧ (∃ n : ℕ, 0 < n ∧ o.archiveThreshold = (n : ℚ))
          ∧ o.distanceFunctionOk = true
          ∧ (o.maxArchiveSize = none
              ∨ ∃ n : ℕ, 0 < n ∧ o.maxArchiveSize = some (n : ℚ))) := by
  constructor
  · intro h
    unfold makeArchiveChecks at h
    simp only [Bool.and_eq_true, decide_eq_true_eq] at h
    obtain ⟨⟨⟨hk, ht⟩, hdf⟩, hmax⟩ := h
    refine ⟨(isInt_pos_iff _).mp hk, (isInt_pos_iff _).mp ht, hdf, ?_⟩
    cases hm : o.maxArchiveSize with
    | none => exact Or.inl rfl
    | some m =>
      rw [hm] at hmax
      simp only [Bool.and_eq_true, decide_eq_true_eq] at hmax
      rcases (isInt_pos_iff m).mp hmax with ⟨n, hn, hmn⟩
      exact Or.inr ⟨n, hn, congrArg some hmn⟩
  · rintro ⟨hk, ht, hdf, hmax⟩
    unfold makeArchiveChecks
    simp only [Bool.and_eq_true, decide_eq_true_eq]
    refine ⟨⟨⟨(isInt_pos_iff _).mpr hk, (isInt_pos_iff _).mpr ht⟩, hdf⟩, ?_⟩
    rcases hmax with hnone | ⟨n, hn, hsome⟩
    · rw [hnone]
    · rw [hsome]
      simp only [Bool.and_eq_true, decide_eq_true_eq]
      exact (isInt_pos_iff _).mpr ⟨n, hn, rfl⟩

theorem setGuard_self (st : ArchiveState)
    (h : st.sparsitiesCalculatedThisGeneration = true) :
    { st with sparsitiesCalculatedThisGeneration := true } = st := by
  cases st
  simp_all

theorem calculateSparsities_cached (dist : Behavior → Behavior → ℚ) (k : Nat)
    (st1 : ArchiveState) (hne : st1.recentBehaviors.length ≠ 0)
    (hlen : st1.sparsities.length = st1.recentBehaviors.length) :
    calculateSparsities dist k st1
      = ({ st1 with sparsitiesCalculatedThisGeneration := true }, true) := by
  unfold calculateSparsities
  rw [if_neg hne, if_neg (by simp [hlen]), if_neg (by simp [hlen])]

theorem sparsityLoop_length (dist : Behavior → Behavior → ℚ) (k : Nat)
    (archive recent : List Observation) (idxs : List Nat) (acc sp : List ℚ)
    (h : sparsityLoop dist k archive recent idxs acc = (sp, true)) :
    sp.length = acc.length + idxs.length := by
  induction idxs generalizing acc with
  | nil =>
    unfold sparsityLoop at h
    injection h with h1 _
    simp [← h1]
  | cons j rest ih =>
    unfold sparsityLoop at h
    cases hms : measureSparsity dist k archive recent j with
    | none =>
      rw [hms] at h
      injection h with _ h2
      exact absurd h2 (by simp)
    | some s =>
      rw [hms] at h
      have := ih (acc ++ [s]) h
      simp only [List.length_append, List.length_cons, List.length_nil] at this ⊢
      omega

theorem calculateSparsities_success (dist : Behavior → Behavior → ℚ) (k : Nat)
    (st : ArchiveState) (hok : (calculateSparsities dist k st).2 = true) :
    ((calculateSparsities dist k st).1.sparsities.length
        = (calculateSparsities dist k st).1.recentBehaviors.length)
      ∧ (calculateSparsities dist k st).1.recentBehaviors = st.recentBehaviors
      ∧ (calculateSparsities dist k st).1.behaviorArchive = st.behaviorArchive
      ∧ (calculateSparsities dist k st).1.dimensionality = st.dimensionality
      ∧ (calculateSparsities dist k st).1.sparsitiesCalculatedThisGeneration = true
      ∧ st.recentBehaviors.length ≠ 0 := by
  unfold calculateSparsities at hok ⊢
  by_cases h0 : st.recentBehaviors.length = 0
  · rw [if_pos h0] at hok
    exact absurd hok (by simp)
  rw [if_neg h0] at hok ⊢
  by_cases h1 : st.sparsities.length ≠ 0
      ∧ st.sparsities.length ≠ st.recentBehaviors.length
  · rw [if_pos h1] at hok
    exact absurd hok (by simp)
  rw [if_neg h1] at hok ⊢
  by_cases h2 : st.sparsities.length ≠ st.recentBehaviors.length
  · rw [if_pos h2] at hok ⊢
    cases hloop : sparsityLoop dist k st.behaviorArchive st.recentBehaviors
        (List.range st.recentBehaviors.length) [] with
    | mk sp ok =>
      cases ok with
      | false =>
        rw [hloop] at hok
        exact Bool.noConfusion hok
      | true =>
        have hsp := sparsityLoop_length dist k st.behaviorArchive st.recentBehaviors
          _ [] sp hloop
        simp only [List.length_nil, List.length_range, Nat.zero_add] at hsp
        exact ⟨hsp, rfl, rfl, rfl, rfl, h0⟩
  · rw [if_neg h2] at hok ⊢
    push_neg at h2
    exact ⟨h2, rfl, rfl, rfl, rfl, h0⟩

theorem calculateSparsities_preserves (dist : Behavior → Behavior → ℚ) (k : Nat)
    (st : ArchiveState) :
    (calculateSparsities dist k st).1.behaviorArchive = st.behaviorArchive
      ∧ (calculateSparsities dist k st).1.recentBehaviors = st.recentBehaviors
      ∧ (calculateSparsities dist k st).1.dimensionality = st.dimensionality := by
  unfold calculateSparsities
  split_ifs
  · exact ⟨rfl, rfl, rfl⟩
  · exact ⟨rfl, rfl, rfl⟩
  · cases hloop : sparsityLoop dist k st.behaviorArchive st.recentBehaviors
        (List.range st.recentBehaviors.length) [] with
    | mk sp ok => cases ok <;> exact ⟨rfl, rfl, rfl⟩
  · exact ⟨rfl, rfl, rfl⟩

theorem noteBehavior_preserves (st : ArchiveState) (b : Behavior) (ia : Bool)
    (g : String) (is : Bool) :
    (noteBehavior st b ia g is).1.behaviorArchive = st.behaviorArchive
      ∧ (noteBehavior st b ia g is).1.sparsities = st.sparsities
      ∧ (noteBehavior st b ia g is).1.sparsitiesCalculatedThisGeneration
          = st.sparsitiesCalculatedThisGeneration := by
  unfold noteBehavior
  cases hd : st.dimensionality with
  | none =>
    simp only
    split_ifs <;> exact ⟨rfl, rfl, rfl⟩
  | some d =>
    simp only
    split_ifs <;> exact ⟨rfl, rfl, rfl⟩

theorem getSparsities_spec (dist : Behavior → Behavior → ℚ) (k : Nat)
    (st : ArchiveState) :
    getSparsities dist k st
      = (if (calculateSparsities dist k st).2
            then some (calculateSparsities dist k st).1.sparsities
            else none,
          (calculateSparsities dist k st).1) := by
  unfold getSparsities
  cases hc : calculateSparsities dist k st with
  | mk st1 ok => cases ok <;> simp

/-- C5: after a successful sparsity computation the cached scores cover
exactly the buffer length, and calling `getSparsities` again with no
intervening recording or finalization returns the identical value and leaves
the state unchanged (the cached branch, no recomputation). -/
theorem sparsities_cache_stable (dist : Behavior → Behavior → ℚ) (k : Nat)
    (st : ArchiveState) (hok : (getSparsities dist k st).1 ≠ none) :
    (getSparsities dist k (getSparsities dist k st).2).1
        = (getSparsities dist k st).1
      ∧ (getSparsities dist k (getSparsities dist k st).2).2
          = (getSparsities dist k st).2
      ∧ (getSparsities dist k st).2.sparsities.length
          = (getSparsities dist k st).2.recentBehaviors.length := by
  simp only [getSparsities_spec] at hok ⊢
  have hsucc : (calculateSparsities dist k st).2 = true := by
    by_cases h : (calculateSparsities dist k st).2 = true
    · exact h
    · rw [if_neg h] at hok
      exact absurd rfl hok
  obtain ⟨hlen, hrec, -, -, hguard, hne0⟩ :=
    calculateSparsities_success dist k st hsucc
  have hcached := calculateSparsities_cached dist k (calculateSparsities dist k st).1
    (by rw [hrec]; exact hne0) hlen
  rw [setGuard_self _ hguard] at hcached
  simp [hcached, hsucc, hlen]

/-- A concrete state whose sparsity cache already covers the buffer. -/
def witStateCached : ArchiveState :=
  { behaviorArchive := []
    recentBehaviors := [([3], "g")]
    dimensionality := some 1
    sparsities := [5]
    sparsitiesCalculatedThisGeneration := false }

/-- Witness for C5 at the concrete state `witStateCached`. -/
theorem sparsities_cache_stable_wit :
    ((getSparsities witDist 1 (getSparsities witDist 1 witStateCached).2).1
        = (getSparsities witDist 1 witStateCached).1
      ∧ (getSparsities witDist 1 (getSparsities witDist 1 witStateCached).2).2
          = (getSparsities witDist 1 witStateCached).2
      ∧ (getSparsities witDist 1 witStateCached).2.sparsities.length
          = (getSparsities witDist 1 witStateCached).2.recentBehaviors.length) :=
  sparsities_cache_stable witDist 1 witStateCached (by decide)

theorem archivePushLoop_cons_some (thr : ℚ) (recent : List Observation)
    (sparsities : List ℚ) (i : Nat) (rest : List Nat) (acc : List Observation)
    (s : ℚ) (h : sparsities.get? i = some s) :
    archivePushLoop thr recent sparsities (i :: rest) acc
      = if thr ≤ s then
          archivePushLoop thr recent sparsities rest
            (acc ++ [recent.getD i dummyObservation])
        else archivePushLoop thr recent sparsities rest acc := by
  simp only [archivePushLoop, h]

theorem archivePushLoop_drop (thr : ℚ) (recent : List Observation)
    (sparsities : List ℚ) (hlen : sparsities.length = recent.length) :
    ∀ (m j : Nat) (acc : List Observation), j + m = recent.length →
      archivePushLoop thr recent sparsities (List.range' j m) acc
        = acc ++ (((recent.drop j).zip (sparsities.drop j)).filter
            (fun p => decide (thr ≤ p.2))).map Prod.fst := by
  intro m
  induction m with
  | zero =>
    intro j acc hj
    have hdropr : recent.drop j = [] :=
      List.drop_eq_nil_of_le (by omega)
    rw [hdropr]
    simp [archivePushLoop]
  | succ m ih =>
    intro j acc hj
    have hjr : j < recent.length := by omega
    have hjs : j < sparsities.length := by omega
    rw [List.range'_succ]
    rw [archivePushLoop_cons_some thr recent sparsities j _ acc (sparsities[j])
      (by rw [List.get?_eq_getElem?, List.getElem?_eq_getElem hjs])]
    rw [List.drop_eq_getElem_cons hjr, List.drop_eq_getElem_cons hjs,
      List.zip_cons_cons, List.filter_cons]
    by_cases hcmp : thr ≤ sparsities[j]
    · rw [if_pos hcmp, ih (j + 1) (acc ++ [recent.getD j dummyObservation]) (by omega)]
      have hgd : recent.getD j dummyObservation = recent[j] :=
        List.getD_eq_getElem recent dummyObservation hjr
      simp [hgd, hcmp, List.getElem?_eq_getElem hjr]
    · rw [if_neg hcmp, ih (j + 1) acc (by omega)]
      simp [hcmp]

theorem archivePushLoop_spec (thr : ℚ) (recent : List Observation)
    (sparsities : List ℚ) (acc : List Observation)
    (hlen : sparsities.length = recent.length) :
    archivePushLoop thr recent sparsities (List.range recent.length) acc
      = acc ++ ((recent.zip sparsities).filter
          (fun p => decide (thr ≤ p.2))).map Prod.fst := by
  rw [List.range_eq_range']
  have := archivePushLoop_drop thr recent sparsities hlen recent.length 0 acc
    (by omega)
  simpa using this

theorem pruneArchive_spec (max : Option Nat) (st : ArchiveState) :
    (pruneArchive max st).behaviorArchive = specFifoPrune max st.behaviorArchive
      ∧ (pruneArchive max st).recentBehaviors = st.recentBehaviors
      ∧ (pruneArchive max st).sparsities = st.sparsities
      ∧ (pruneArchive max st).sparsitiesCalculatedThisGeneration
          = st.sparsitiesCalculatedThisGeneration
      ∧ (pruneArchive max st).dimensionality = st.dimensionality := by
  cases max with
  | none => exact ⟨rfl, rfl, rfl, rfl, rfl⟩
  | some m =>
    simp only [pruneArchive, specFifoPrune]
    by_cases h : m < st.behaviorArchive.length
    · rw [if_pos h, if_neg (by omega)]
      exact ⟨rfl, rfl, rfl, rfl, rfl⟩
    · rw [if_neg h, if_pos (by omega)]
      exact ⟨rfl, rfl, rfl, rfl, rfl⟩

theorem archiveAndClear_success_spec (dist : Behavior → Behavior → ℚ) (k : Nat)
    (thr : ℚ) (max : Option Nat) (st : ArchiveState)
    (hok : (archiveAndClear dist k thr max st).2 = true) :
    (archiveAndClear dist k thr max st).1.behaviorArchive
        = specFifoPrune max (st.behaviorArchive
            ++ ((st.recentBehaviors.zip
                  (calculateSparsities dist k st).1.sparsities).filter
                (fun p => decide (thr ≤ p.2))).map Prod.fst)
      ∧ (archiveAndClear dist k thr max st).1.recentBehaviors = []
      ∧ (archiveAndClear dist k thr max st).1.sparsities = []
      ∧ (archiveAndClear dist k thr max st).1.sparsitiesCalculatedThisGeneration
          = false := by
  have hcalcok : (calculateSparsities dist k st).2 = true := by
    by_contra hfalse
    have hcf : (calculateSparsities dist k st).2 = false := by
      cases h : (calculateSparsities dist k st).2
      · rfl
      · exact absurd h hfalse
    unfold archiveAndClear at hok
    cases hc : calculateSparsities dist k st with
    | mk st1 ok =>
      rw [hc] at hcf hok
      cases ok
      · exact Bool.noConfusion hok
      · exact Bool.noConfusion hcf
  obtain ⟨hlen, hrec, harch, -, -, -⟩ := calculateSparsities_success dist k st hcalcok
  unfold archiveAndClear
  cases hc : calculateSparsities dist k st with
  | mk st1 ok =>
    rw [hc] at hcalcok hlen hrec harch
    cases ok with
    | false => exact Bool.noConfusion hcalcok
    | true =>
      have hpush := archivePushLoop_spec thr st1.recentBehaviors st1.sparsities
        st1.behaviorArchive (by rw [hlen])
      have hprune := pruneArchive_spec max
        { st1 with behaviorArchive :=
                     archivePushLoop thr st1.recentBehaviors st1.sparsities
                       (List.range st1.recentBehaviors.length) st1.behaviorArchive }
      refine ⟨?_, rfl, rfl, rfl⟩
      rw [hprune.1]
      rw [hpush, hrec, harch]

/-- C2: on a successful finalization the archive equals the previous archive
extended, in original recording order, by exactly those buffered
observations whose computed sparsity is `>=` the threshold (the rest are
discarded), followed by FIFO pruning; and the generation buffer, the cached
sparsities and the ordering guard are cleared. -/
theorem finalize_filters_by_threshold (dist : Behavior → Behavior → ℚ) (k : Nat)
    (thr : ℚ) (max : Option Nat) (st : ArchiveState)
    (hok : (archiveAndClear dist k thr max st).2 = true) :
    (archiveAndClear dist k thr max st).1.behaviorArchive
        = specFifoPrune max (st.behaviorArchive
            ++ ((st.recentBehaviors.zip
                  (calculateSparsities dist k st).1.sparsities).filter
                (fun p => decide (thr ≤ p.2))).map Prod.fst)
      ∧ (archiveAndClear dist k thr max st).1.recentBehaviors = []
      ∧ (archiveAndClear dist k thr max st).1.sparsities = []
      ∧ (archiveAndClear dist k thr max st).1.sparsitiesCalculatedThisGeneration
          = false :=
  archiveAndClear_success_spec dist k thr max st hok

/-- Witness for C2: finalizing the cached single-observation generation of
`witStateCached` with threshold 2 and capacity 2. -/
theorem finalize_filters_by_threshold_wit :
    (archiveAndClear witDist 1 2 (some 2) witStateCached).1.behaviorArchive
        = specFifoPrune (some 2) (witStateCached.behaviorArchive
            ++ ((witStateCached.recentBehaviors.zip
                  (calculateSparsities witDist 1 witStateCached).1.sparsities).filter
                (fun p => decide ((2 : ℚ) ≤ p.2))).map Prod.fst)
      ∧ (archiveAndClear witDist 1 2 (some 2) witStateCached).1.recentBehaviors = []
      ∧ (archiveAndClear witDist 1 2 (some 2) witStateCached).1.sparsities = []
      ∧ (archiveAndClear witDist 1 2 (some 2)
            witStateCached).1.sparsitiesCalculatedThisGeneration = false :=
  finalize_filters_by_threshold witDist 1 2 (some 2) witStateCached (by decide)

/-- Witness for the amended C7 at a concrete valid options object. -/
theorem makeArchive_valid_iff_wit :
    makeArchiveChecks
        { kNearestNeighbors := 2
          archiveThreshold := 3
          distanceFunctionOk := true
          maxArchiveSize := none } = true
      ↔ ((∃ n : ℕ, 0 < n ∧ (2 : ℚ) = (n : ℚ))
          ∧ (∃ n : ℕ, 0 < n ∧ (3 : ℚ) = (n : ℚ))
          ∧ true = true
          ∧ ((none : Option ℚ) = none
              ∨ ∃ n : ℕ, 0 < n ∧ (none : Option ℚ) = some (n : ℚ))) :=
  makeArchive_valid_iff
    { kNearestNeighbors := 2
      archiveThreshold := 3
      distanceFunctionOk := true
      maxArchiveSize := none }

theorem archiveAndClear_calc_ok (dist : Behavior → Behavior → ℚ) (k : Nat)
    (thr : ℚ) (max : Option Nat) (st : ArchiveState)
    (hok : (archiveAndClear dist k thr max st).2 = true) :
    (calculateSparsities dist k st).2 = true := by
  by_contra hfalse
  have hcf : (calculateSparsities dist k st).2 = false := by
    cases h : (calculateSparsities dist k st).2
    · rfl
    · exact absurd h hfalse
  unfold archiveAndClear at hok
  cases hc : calculateSparsities dist k st with
  | mk st1 ok =>
    rw [hc] at hcf hok
    cases ok
    · exact Bool.noConfusion hok
    · exact Bool.noConfusion hcf

theorem archiveAndClear_clears (dist : Behavior → Behavior → ℚ) (k : Nat)
    (thr : ℚ) (max : Option Nat) (st : ArchiveState)
    (hok : (archiveAndClear dist k thr max st).2 = true) :
    (archiveAndClear dist k thr max st).1.recentBehaviors = []
      ∧ (archiveAndClear dist k thr max st).1.sparsities = []
      ∧ (archiveAndClear dist k thr max st).1.sparsitiesCalculatedThisGeneration
          = false
      ∧ (archiveAndClear dist k thr max st).1.dimensionality = st.dimensionality := by
  have hcalcok := archiveAndClear_calc_ok dist k thr max st hok
  have hdim0 := (calculateSparsities_preserves dist k st).2.2
  unfold archiveAndClear
  cases hc : calculateSparsities dist k st with
  | mk st1 ok =>
    rw [hc] at hcalcok hdim0
    cases ok with
    | false => exact Bool.noConfusion hcalcok
    | true =>
      refine ⟨rfl, rfl, rfl, ?_⟩
      have hp := (pruneArchive_spec max
        { st1 with behaviorArchive :=
                     archivePushLoop thr st1.recentBehaviors st1.sparsities
                       (List.range st1.recentBehaviors.length)
                       st1.behaviorArchive }).2.2.2.2
      exact hp.trans hdim0

theorem noteBehavior_succeeds (st : ArchiveState)
    (hguard : st.sparsitiesCalculatedThisGeneration = false)
    (b : Behavior) (g : String) (hdim : st.dimensionality = some b.length) :
    (noteBehavior st b true g true).2 = true := by
  unfold noteBehavior
  rw [hdim]
  simp [hguard, hdim]

/-- C4: whenever the ordering guard is set (sparsities computed for the
current generation and not yet finalized) every recording call fails and
adds nothing to the buffer; a successful finalization clears the guard,
after which a well-typed recording of matching dimensionality succeeds
again. -/
theorem guard_blocks_recording (dist : Behavior → Behavior → ℚ) (k : Nat)
    (thr : ℚ) (max : Option Nat) (st : ArchiveState) :
    (st.sparsitiesCalculatedThisGeneration = true →
        ∀ (b : Behavior) (ia : Bool) (g : String) (is : Bool),
          (noteBehavior st b ia g is).2 = false
            ∧ (noteBehavior st b ia g is).1.recentBehaviors = st.recentBehaviors)
      ∧ ((archiveAndClear dist k thr max st).2 = true →
          (archiveAndClear dist k thr max
              st).1.sparsitiesCalculatedThisGeneration = false
            ∧ ∀ (b : Behavior) (g : String),
                (archiveAndClear dist k thr max st).1.dimensionality
                    = some b.length →
                  (noteBehavior (archiveAndClear dist k thr max st).1 b true g
                      true).2 = true) := by
  constructor
  · intro hguard b ia g is
    unfold noteBehavior
    cases hd : st.dimensionality with
    | none => simp [hguard]
    | some d => simp [hguard]
  · intro hok
    have hclears := archiveAndClear_clears dist k thr max st hok
    refine ⟨hclears.2.2.1, ?_⟩
    intro b g hdim
    exact noteBehavior_succeeds _ hclears.2.2.1 b g hdim

/-- A concrete state with the ordering guard set and a complete cache. -/
def witStateGuard : ArchiveState :=
  { behaviorArchive := []
    recentBehaviors := [([3], "g")]
    dimensionality := some 1
    sparsities := [5]
    sparsitiesCalculatedThisGeneration := true }

/-- Witness for C4 at `witStateGuard`: recording is refused while the guard is
set, and succeeds again after finalization. -/
theorem guard_blocks_recording_wit :
    ((noteBehavior witStateGuard [3] true "h" true).2 = false
        ∧ (noteBehavior witStateGuard [3] true "h" true).1.recentBehaviors
            = witStateGuard.recentBehaviors)
      ∧ (archiveAndClear witDist 1 2 none
            witStateGuard).1.sparsitiesCalculatedThisGeneration = false
      ∧ (noteBehavior (archiveAndClear witDist 1 2 none witStateGuard).1 [9] true
          "h2" true).2 = true := by
  have h := guard_blocks_recording witDist 1 2 none witStateGuard
  have hb := h.2 (by decide)
  exact ⟨h.1 rfl [3] true "h" true, hb.1, hb.2 [9] "h2" (by decide)⟩

theorem pruneArchive_length_le (m : Nat) (st : ArchiveState) :
    (pruneArchive (some m) st).behaviorArchive.length ≤ m := by
  simp only [pruneArchive]
  by_cases h : m < st.behaviorArchive.length
  · rw [if_pos h]
    simp only [List.length_drop]
    omega
  · rw [if_neg h]
    omega

theorem archiveAndClear_length_bound (dist : Behavior → Behavior → ℚ) (k : Nat)
    (thr : ℚ) (m : Nat) (st : ArchiveState) :
    (archiveAndClear dist k thr (some m) st).1.behaviorArchive.length ≤ m
      ∨ (archiveAndClear dist k thr (some m) st).1.behaviorArchive
          = st.behaviorArchive := by
  have harch0 := (calculateSparsities_preserves dist k st).1
  unfold archiveAndClear
  cases hc : calculateSparsities dist k st with
  | mk st1 ok =>
    rw [hc] at harch0
    cases ok with
    | false => exact Or.inr harch0
    | true =>
      exact Or.inl (pruneArchive_length_le m
        { st1 with behaviorArchive :=
                     archivePushLoop thr st1.recentBehaviors st1.sparsities
                       (List.range st1.recentBehaviors.length)
                       st1.behaviorArchive })

/-- C3: every state reachable with a configured maximum has an archive no
longer than that maximum; recording and sparsity computation never touch the
archive (eviction can only happen inside finalization); and pruning an
over-long archive drops exactly `length - maxArchiveSize` entries from the
front in one pass, leaving exactly `maxArchiveSize` entries. -/
theorem archive_bounded_fifo (dist : Behavior → Behavior → ℚ) (k : Nat)
    (thr : ℚ) (m : Nat) (st : ArchiveState)
    (hreach : Reachable dist k thr (some m) st) :
    st.behaviorArchive.length ≤ m
      ∧ (∀ (b : Behavior) (ia : Bool) (g : String) (is : Bool),
          (noteBehavior st b ia g is).1.behaviorArchive = st.behaviorArchive)
      ∧ (calculateSparsities dist k st).1.behaviorArchive = st.behaviorArchive
      ∧ (∀ st' : ArchiveState, m < st'.behaviorArchive.length →
          (pruneArchive (some m) st').behaviorArchive
              = st'.behaviorArchive.drop (st'.behaviorArchive.length - m)
            ∧ (pruneArchive (some m) st').behaviorArchive.length = m) := by
  refine ⟨?_, fun b ia g is => (noteBehavior_preserves st b ia g is).1,
    (calculateSparsities_preserves dist k st).1, ?_⟩
  · induction hreach with
    | init => simp [initState]
    | note st' b ia g is hr ih =>
      rw [(noteBehavior_preserves st' b ia g is).1]
      exact ih
    | compute st' hr ih =>
      rw [(calculateSparsities_preserves dist k st').1]
      exact ih
    | finalize st' hr ih =>
      rcases archiveAndClear_length_bound dist k thr m st' with h | h
      · exact h
      · rw [h]
        exact ih
  · intro st' h
    simp only [pruneArchive]
    rw [if_pos h]
    refine ⟨rfl, ?_⟩
    simp only [List.length_drop]
    omega

/-- Witness for C3: the freshly constructed instance with capacity 2 and an
over-long four-entry archive for the pruning clause. -/
theorem archive_bounded_fifo_wit :
    initState.behaviorArchive.length ≤ 2
      ∧ (∀ (b : Behavior) (ia : Bool) (g : String) (is : Bool),
          (noteBehavior initState b ia g is).1.behaviorArchive
            = initState.behaviorArchive)
      ∧ (calculateSparsities witDist 1 initState).1.behaviorArchive
          = initState.behaviorArchive
      ∧ (∀ st' : ArchiveState, 2 < st'.behaviorArchive.length →
          (pruneArchive (some 2) st').behaviorArchive
              = st'.behaviorArchive.drop (st'.behaviorArchive.length - 2)
            ∧ (pruneArchive (some 2) st').behaviorArchive.length = 2) :=
  archive_bounded_fifo witDist 1 2 2 initState Reachable.init

theorem noteBehavior_dim_some (st : ArchiveState) (d : Nat)
    (hdim : st.dimensionality = some d) (b : Behavior) (ia : Bool) (g : String)
    (is : Bool) :
    (noteBehavior st b ia g is).1.dimensionality = some d
      ∧ (b.length ≠ d → (noteBehavior st b ia g is).2 = false)
      ∧ ((noteBehavior st b ia g is).1.recentBehaviors = st.recentBehaviors
          ∨ ((noteBehavior st b ia g is).1.recentBehaviors
              = st.recentBehaviors ++ [(b, g)] ∧ b.length = d)) := by
  unfold noteBehavior
  rw [hdim]
  simp only
  split_ifs with h1 h2 h3 h4
  · exact ⟨hdim, fun _ => rfl, Or.inl rfl⟩
  · exact ⟨hdim, fun _ => rfl, Or.inl rfl⟩
  · exact ⟨hdim, fun _ => rfl, Or.inl rfl⟩
  · rw [hdim] at h4
    injection h4 with h5
    exact ⟨hdim, fun hne => absurd h5.symm hne, Or.inr ⟨rfl, h5.symm⟩⟩
  · exact ⟨hdim, fun _ => rfl, Or.inl rfl⟩

theorem noteBehavior_dim_none (st : ArchiveState)
    (hdim : st.dimensionality = none) (b : Behavior) (ia : Bool) (g : String)
    (is : Bool) :
    (noteBehavior st b ia g is).1.dimensionality = some b.length
      ∧ ((noteBehavior st b ia g is).1.recentBehaviors = st.recentBehaviors
          ∨ (noteBehavior st b ia g is).1.recentBehaviors
              = st.recentBehaviors ++ [(b, g)]) := by
  unfold noteBehavior
  rw [hdim]
  simp only
  split_ifs
  all_goals first
    | exact ⟨rfl, Or.inl rfl⟩
    | exact ⟨rfl, Or.inr rfl⟩

theorem mem_specFifoPrune (max : Option Nat) (l : List Observation)
    (o : Observation) (h : o ∈ specFifoPrune max l) : o ∈ l := by
  cases max with
  | none => exact h
  | some m =>
    simp only [specFifoPrune] at h
    by_cases hc : l.length ≤ m
    · rw [if_pos hc] at h
      exact h
    · rw [if_neg hc] at h
      exact List.drop_subset _ _ h

theorem archiveAndClear_failure_state (dist : Behavior → Behavior → ℚ) (k : Nat)
    (thr : ℚ) (max : Option Nat) (st : ArchiveState)
    (hok : ¬ (archiveAndClear dist k thr max st).2 = true) :
    (archiveAndClear dist k thr max st).1 = (calculateSparsities dist k st).1 := by
  unfold archiveAndClear
  cases hc : calculateSparsities dist k st with
  | mk st1 ok =>
    cases ok with
    | false => rfl
    | true =>
      exfalso
      apply hok
      unfold archiveAndClear
      rw [hc]

theorem reachable_dim_inv (dist : Behavior → Behavior → ℚ) (k : Nat) (thr : ℚ)
    (max : Option Nat) (st : ArchiveState)
    (hreach : Reachable dist k thr max st) :
    (st.dimensionality = none → st.recentBehaviors = [] ∧ st.behaviorArchive = [])
      ∧ (∀ d, st.dimensionality = some d →
          (∀ o ∈ st.recentBehaviors, o.1.length = d)
            ∧ (∀ o ∈ st.behaviorArchive, o.1.length = d)) := by
  induction hreach with
  | init =>
    constructor
    · intro _
      exact ⟨rfl, rfl⟩
    · intro d hd
      exact absurd hd (by simp [initState])
  | note st' b ia g is hr ih =>
    have hpres := noteBehavior_preserves st' b ia g is
    cases hdim' : st'.dimensionality with
    | none =>
      obtain ⟨hrec0, harch0⟩ := ih.1 hdim'
      have hn := noteBehavior_dim_none st' hdim' b ia g is
      constructor
      · intro hnone
        rw [hn.1] at hnone
        exact Option.noConfusion hnone
      · intro d hd
        rw [hn.1] at hd
        injection hd with hd'
        constructor
        · intro o ho
          rcases hn.2 with h | h
          · rw [h, hrec0] at ho
            exact absurd ho (List.not_mem_nil o)
          · rw [h, hrec0, List.nil_append] at ho
            rw [List.mem_singleton] at ho
            rw [ho, ← hd']
        · intro o ho
          rw [hpres.1, harch0] at ho
          exact absurd ho (List.not_mem_nil o)
    | some d' =>
      have hs := noteBehavior_dim_some st' d' hdim' b ia g is
      constructor
      · intro hnone
        rw [hs.1] at hnone
        exact Option.noConfusion hnone
      · intro d hd
        rw [hs.1] at hd
        injection hd with hd'
        obtain ⟨hbuf, harch⟩ := ih.2 d' hdim'
        constructor
        · intro o ho
          rcases hs.2.2 with h | ⟨h, hbl⟩
          · rw [h] at ho
            rw [← hd']
            exact hbuf o ho
          · rw [h] at ho
            rcases List.mem_append.mp ho with h1 | h1
            · rw [← hd']
              exact hbuf o h1
            · rw [List.mem_singleton] at h1
              rw [h1, ← hd']
              exact hbl
        · intro o ho
          rw [hpres.1] at ho
          rw [← hd']
          exact harch o ho
  | compute st' hr ih =>
    have hp := calculateSparsities_preserves dist k st'
    constructor
    · intro hnone
      rw [hp.2.2] at hnone
      obtain ⟨h1, h2⟩ := ih.1 hnone
      rw [hp.2.1, hp.1]
      exact ⟨h1, h2⟩
    · intro d hd
      rw [hp.2.2] at hd
      obtain ⟨h1, h2⟩ := ih.2 d hd
      constructor
      · intro o ho
        rw [hp.2.1] at ho
        exact h1 o ho
      · intro o ho
        rw [hp.1] at ho
        exact h2 o ho
  | finalize st' hr ih =>
    by_cases hok : (archiveAndClear dist k thr max st').2 = true
    · have hcl := archiveAndClear_clears dist k thr max st' hok
      have hspec := archiveAndClear_success_spec dist k thr max st' hok
      constructor
      · intro hnone
        rw [hcl.2.2.2] at hnone
        obtain ⟨h1, h2⟩ := ih.1 hnone
        refine ⟨hcl.1, ?_⟩
        rw [hspec.1, h2, h1]
        cases max with
        | none => simp [specFifoPrune]
        | some m => simp [specFifoPrune]
      · intro d hd
        rw [hcl.2.2.2] at hd
        obtain ⟨h1, h2⟩ := ih.2 d hd
        constructor
        · rw [hcl.1]
          intro o ho
          exact absurd ho (List.not_mem_nil o)
        · intro o ho
          rw [hspec.1] at ho
          have ho2 := mem_specFifoPrune max _ o ho
          rcases List.mem_append.mp ho2 with h | h
          · exact h2 o h
          · rcases List.mem_map.mp h with ⟨p, hp, hpo⟩
            have hpz := (List.mem_filter.mp hp).1
            have hpm := (List.of_mem_zip hpz).1
            rw [← hpo]
            exact h1 _ hpm
    · have heq := archiveAndClear_failure_state dist k thr max st' hok
      have hp := calculateSparsities_preserves dist k st'
      rw [heq]
      constructor
      · intro hnone
        rw [hp.2.2] at hnone
        obtain ⟨h1, h2⟩ := ih.1 hnone
        rw [hp.2.1, hp.1]
        exact ⟨h1, h2⟩
      · intro d hd
        rw [hp.2.2] at hd
        obtain ⟨h1, h2⟩ := ih.2 d hd
        constructor
        · intro o ho
          rw [hp.2.1] at ho
          exact h1 o ho
        · intro o ho
          rw [hp.1] at ho
          exact h2 o ho

/-- C6: once a dimensionality `d` is established, every observation stored in
the generation buffer and the archive of a reachable state has a vector of
length `d`; any recording whose behavior length differs from `d` fails; no
recording changes an established dimensionality; and the first recording on
a fresh instance fixes the dimensionality to the length of its behavior
argument. -/
theorem dimensionality_fixed (dist : Behavior → Behavior → ℚ) (k : Nat)
    (thr : ℚ) (max : Option Nat) (st : ArchiveState) (d : Nat)
    (hreach : Reachable dist k thr max st)
    (hdim : st.dimensionality = some d) :
    (∀ o ∈ st.recentBehaviors, o.1.length = d)
      ∧ (∀ o ∈ st.behaviorArchive, o.1.length = d)
      ∧ (∀ (b : Behavior) (ia : Bool) (g : String) (is : Bool),
          b.length ≠ d → (noteBehavior st b ia g is).2 = false)
      ∧ (∀ (b : Behavior) (ia : Bool) (g : String) (is : Bool),
          (noteBehavior st b ia g is).1.dimensionality = some d)
      ∧ (∀ (b : Behavior) (ia : Bool) (g : String) (is : Bool),
          (noteBehavior initState b ia g is).1.dimensionality
            = some b.length) := by
  obtain ⟨h1, h2⟩ := (reachable_dim_inv dist k thr max st hreach).2 d hdim
  refine ⟨h1, h2, ?_, ?_, ?_⟩
  · intro b ia g is hne
    exact (noteBehavior_dim_some st d hdim b ia g is).2.1 hne
  · intro b ia g is
    exact (noteBehavior_dim_some st d hdim b ia g is).1
  · intro b ia g is
    exact (noteBehavior_dim_none initState rfl b ia g is).1

/-- Witness for C6 at the state reached by one first recording. -/
theorem dimensionality_fixed_wit :
    (∀ o ∈ (noteBehavior initState [3] true "g" true).1.recentBehaviors,
        o.1.length = 1)
      ∧ (∀ o ∈ (noteBehavior initState [3] true "g" true).1.behaviorArchive,
          o.1.length = 1)
      ∧ (∀ (b : Behavior) (ia : Bool) (g : String) (is : Bool),
          b.length ≠ 1 →
            (noteBehavior (noteBehavior initState [3] true "g" true).1 b ia g
                is).2 = false)
      ∧ (∀ (b : Behavior) (ia : Bool) (g : String) (is : Bool),
          (noteBehavior (noteBehavior initState [3] true "g" true).1 b ia g
              is).1.dimensionality = some 1)
      ∧ (∀ (b : Behavior) (ia : Bool) (g : String) (is : Bool),
          (noteBehavior initState b ia g is).1.dimensionality
            = some b.length) :=
  dimensionality_fixed witDist 1 2 none
    (noteBehavior initState [3] true "g" true).1 1
    (Reachable.note initState [3] true "g" true Reachable.init) rfl

end Swirlnet
